import Mathlib

/-!
# Verification of the `seatingchart` library

A shallow embedding of `src/seatingchart.py` (class `SeatingChart`).

Modelling conventions:
* Individuals are `String`s, as in the source.
* A constraint pair (a two-element Python list/tuple) is a `String × String`.
* Python `None` for optional arguments becomes `Option`.
* Python exceptions become an `Err` code returned through `Except`;
  the distinct Python exception classes map to distinct constructors
  (`PositiveInteger`, `GroupConflict`, `InvalidRequest`, `TypeError`, and the
  two plain `ValueError` sites get their own constructors).
* Where Python leaves an order unspecified because it iterates a `set`
  (the union built in `__handle_together`, the roster set union in
  `__validate_roster`, the `remaining` set in `__handle_remaining`), the
  embedding enumerates the same set deterministically (`List.dedup`); every
  set-level fact (membership, sizes, counts) agrees with the source.  `random.shuffle` is modelled by an explicit `shuffle` parameter;
  theorems quantify over every `shuffle` that permutes its input, which
  covers every order the source can produce.
-/

abbrev Pair := String × String

abbrev SGroup := List String

abbrev Chart := List SGroup

/-- The exception classes of `seatingchart.py` (plus the two anonymous
`ValueError` raise sites, which get their own codes). -/
inductive Err where
  | positiveInteger
  | groupConflict
  | invalidRequest
  | typeErr
  | dupValue
  | sizeViolation
deriving DecidableEq, Repr

/-- Model of `max(list)` of a nonempty Python list of ints (0 on `[]`, unused there). -/
def listMax (l : List Nat) : Nat :=
  match l with
  | [] => 0
  | x :: xs => xs.foldl Nat.max x

/-- Model of `min(list)` of a nonempty Python list of ints (0 on `[]`, unused there). -/
def listMin (l : List Nat) : Nat :=
  match l with
  | [] => 0
  | x :: xs => xs.foldl Nat.min x

/-- Model of `chart[i] += [item]` : extend the `i`-th group. -/
def appendAt (i : Nat) (item : String) : Chart → Chart
  | [] => []
  | g :: gs =>
    match i with
    | 0 => (g ++ [item]) :: gs
    | n + 1 => g :: appendAt n item gs

/-- Model of `bool(set(pair) & set(group))` of `__handle_together`. -/
def overlaps (p : Pair) (g : SGroup) : Bool :=
  g.contains p.1 || g.contains p.2

/-- Model of `list(set(pair) | set(group))` of `__handle_together`, enumerated
deterministically. -/
def unionPG (p : Pair) (g : SGroup) : SGroup :=
  ([p.1, p.2] ++ g).dedup

/-- The inner `for group in groups` loop of `__handle_together`: find the
first group overlapping `pair`, remove it and append the union at the end.
`none` when no group overlaps. -/
def mergeFirst (p : Pair) : List SGroup → Option (List SGroup)
  | [] => none
  | g :: gs =>
    if overlaps p g then some (gs ++ [unionPG p g])
    else (mergeFirst p gs).map (fun r => g :: r)

/-- One iteration of the outer loop of `__handle_together`. -/
def togStep (groups : List SGroup) (p : Pair) : List SGroup :=
  if groups = [] then [[p.1, p.2]]
  else
    match mergeFirst p groups with
    | some gs => gs
    | none => groups ++ [[p.1, p.2]]

/-- The outer `for pair in self.together` loop of `__handle_together`. -/
def buildTogether : List Pair → List SGroup → List SGroup
  | [], groups => groups
  | p :: ps, groups => buildTogether ps (togStep groups p)

/-- Model of `sorted(groups, key=len, reverse=True)`. -/
def sortLenDesc (c : Chart) : Chart :=
  c.insertionSort (fun a b => b.length ≤ a.length)

/-- Model of `__handle_together`. -/
def handleTogether : Option (List Pair) → Chart
  | none => []
  | some pairs => sortLenDesc (buildTogether pairs [])

/-- Model of `__get_nested_index`: index of the group containing `item`; `None` when
absent; `ValueError` when `item` occurs in more than one group. -/
def getNestedIndex (item : String) (chart : Chart) : Except Err (Option Nat) :=
  match (chart.filter (fun g => g.contains item)).map (fun g => chart.indexOf g) with
  | [] => .ok none
  | [i] => .ok (some i)
  | _ => .error .dupValue

/-- The conflict scan inside `__append_item`: `item` may join `g` unless some
apart pair links `item` with a current occupant of `g`. -/
def canAdd (apart : List Pair) (item : String) (g : SGroup) : Bool :=
  apart.all (fun p =>
    if p.1 == item || p.2 == item then
      !(g.contains (if p.1 == item then p.2 else p.1))
    else true)

/-- The `max_size` guard inside `__append_item`
(`not (max_size is not None and len(group) >= max_size)`). -/
def roomLeft (ms : Option Int) (g : SGroup) : Bool :=
  match ms with
  | none => true
  | some m => decide ((g.length : Int) < m)

/-- Model of `__append_item`: place `item` in the first group that does not already
hold it, has no apart conflict with it and has room; otherwise open a new
singleton group at the end. -/
def appendItem (apart : List Pair) (ms : Option Int) (item : String) : Chart → Chart
  | [] => [[item]]
  | g :: gs =>
    if g.contains item then g :: appendItem apart ms item gs
    else if canAdd apart item g && roomLeft ms g then (g ++ [item]) :: gs
    else g :: appendItem apart ms item gs

/-- One iteration of the `for pair in self.apart` loop of `__handle_apart`.
The four `if/elif` cases of the source, in order; when both members already
share one group, every case fails and the chart is returned unchanged. -/
def apartStep (apart : List Pair) (ms : Option Int) (chart : Chart) (p : Pair) :
    Except Err Chart :=
  match getNestedIndex p.1 chart with
  | .error e => .error e
  | .ok i1 =>
    match getNestedIndex p.2 chart with
    | .error e => .error e
    | .ok i2 =>
      if chart = [] then .ok [[p.1], [p.2]]
      else if i1.isSome && i2.isSome && i1 ≠ i2 then .ok chart
      else if i1.isNone != i2.isNone then
        .ok (appendItem apart ms (if i1.isNone then p.1 else p.2) chart)
      else if i1.isNone && i2.isNone then
        .ok (appendItem apart ms p.2 (appendItem apart ms p.1 chart))
      else .ok chart

/-- The loop of `__handle_apart`. -/
def applyApart (apart : List Pair) (ms : Option Int) (chart : Chart) :
    List Pair → Except Err Chart
  | [] => .ok chart
  | p :: ps =>
    match apartStep apart ms chart p with
    | .error e => .error e
    | .ok c => applyApart apart ms c ps

/-- Model of `__handle_apart`. -/
def handleApart (apart : Option (List Pair)) (ms : Option Int) (chart : Chart) :
    Except Err Chart :=
  match apart with
  | none => .ok chart
  | some pairs => applyApart pairs ms chart pairs

/-- Model of `self.max_size is not None and self.max_size < max_group_size`. -/
def msExceededB (ms : Option Int) (maxG : Nat) : Bool :=
  match ms with
  | some m => decide (m < (maxG : Int))
  | none => false

/-- Model of `self.num_groups is not None and self.num_groups < num_current_groups`. -/
def ngExceededB (ng : Option Int) (n : Nat) : Bool :=
  match ng with
  | some k => decide (k < (n : Int))
  | none => false

/-- Model of `self.num_groups is not None and num_current_groups < self.num_groups`. -/
def belowNumGroups (ng : Option Int) (n : Nat) : Bool :=
  match ng with
  | some k => decide ((n : Int) < k)
  | none => false

/-- Model of `self.max_size is not None and all_same_len and (self.max_size <= max_group_size)`. -/
def atMaxAllSame (ms : Option Int) (allSame : Bool) (maxG : Nat) : Bool :=
  match ms with
  | some m => allSame && decide (m ≤ (maxG : Int))
  | none => false

/-- Model of `__balance_nested_list`: branches in source order (the two `raise`
statements act as an if/else-if chain because a raise exits the method). -/
def balance (ms ng : Option Int) (item : String) (chart : Chart) :
    Except Err Chart :=
  if chart = [] then .ok [[item]]
  else
    let sizes := chart.map List.length
    if msExceededB ms (listMax sizes) then .error .invalidRequest
    else if ngExceededB ng chart.length && msExceededB ms (listMax sizes) then
      .error .groupConflict
    else if belowNumGroups ng chart.length then .ok (chart ++ [[item]])
    else if atMaxAllSame ms (sizes.dedup.length == 1) (listMax sizes) then
      .ok (chart ++ [[item]])
    else .ok (appendAt (sizes.indexOf (listMin sizes)) item chart)

/-- Model of `set(itertools.chain(*chart))` membership test. -/
def placedIn (chart : Chart) (x : String) : Bool :=
  chart.any (fun g => g.contains x)

/-- The `for item in remaining` loop of `__handle_remaining`. -/
def placeAll (ms ng : Option Int) (chart : Chart) : List String → Except Err Chart
  | [] => .ok chart
  | x :: xs =>
    match balance ms ng x chart with
    | .error e => .error e
    | .ok c => placeAll ms ng c xs

/-- Model of `__handle_remaining`.  `set(self.roster)` raises `TypeError` when the
roster is `None`; the shuffled iteration order of the remaining set is the
`shuffle` parameter applied to its deterministic enumeration. -/
def handleRemaining (roster : Option (List String))
    (shuffle : List String → List String) (ms ng : Option Int) (chart : Chart) :
    Except Err Chart :=
  match roster with
  | none => .error .typeErr
  | some r =>
    placeAll ms ng chart (shuffle ((r.dedup).filter (fun x => !(placedIn chart x))))

/-- Model of `__validate_group_size`. -/
def validateGroupSize (ms : Option Int) (chart : Chart) : Except Err Unit :=
  if chart = [] then .ok ()
  else
    match ms with
    | some m =>
        if m < (listMax (chart.map List.length) : Int) then .error .sizeViolation
        else .ok ()
    | none => .ok ()

/-- Model of `__validate_number_of_groups`. -/
def validateNumberOfGroups (ng : Option Int) (chart : Chart) : Except Err Unit :=
  match ng with
  | some k => if k < (chart.length : Int) then .error .invalidRequest else .ok ()
  | none => .ok ()

/-- The mutable state of a `SeatingChart` object after `__init__`. -/
structure SC where
  together : Option (List Pair)
  apart : Option (List Pair)
  maxSize : Option Int
  numGroups : Option Int
  roster : Option (List String)
  cache : Option Chart

/-- Model of `__generate_chart`. -/
def generate (s : SC) (shuffle : List String → List String) : Except Err Chart :=
  let c1 := handleTogether s.together
  match handleApart s.apart s.maxSize c1 with
  | .error e => .error e
  | .ok c2 =>
    match validateGroupSize s.maxSize c2 with
    | .error e => .error e
    | .ok _ =>
      match handleRemaining s.roster shuffle s.maxSize s.numGroups c2 with
      | .error e => .error e
      | .ok c3 =>
        match validateNumberOfGroups s.numGroups c3 with
        | .error e => .error e
        | .ok _ => .ok c3

/-- Model of `__validate_integer_inputs` (the `TypeError` branch for non-integer
values is excluded by the `Int` argument type). -/
def validateInt : Option Int → Except Err (Option Int)
  | none => .ok none
  | some n => if n < 1 then .error .positiveInteger else .ok (some n)

/-- Model of `set(pair_1) == set(pair_2)` for two-element pairs. -/
def setEqPair (p q : Pair) : Bool :=
  (p.1 == q.1 && p.2 == q.2) || (p.1 == q.2 && p.2 == q.1)

/-- Model of `__validate_together_apart`. -/
def validateTogetherApart (t a : Option (List Pair)) : Except Err Unit :=
  match t, a with
  | some ts, some aps =>
    if ts.any (fun p => aps.any (fun q => setEqPair p q)) then .error .groupConflict
    else .ok ()
  | _, _ => .ok ()

/-- All individuals mentioned in an optional constraint list. -/
def membersOf (o : Option (List Pair)) : List String :=
  (o.getD []).foldr (fun p acc => p.1 :: p.2 :: acc) []

/-- Strict lexicographic order on code-point sequences (Python's `<` on
strings): the first differing position decides, a proper prefix is smaller. -/
def strLt (x y : List Char) : Bool :=
  match x, y with
  | [], [] => false
  | [], _ :: _ => true
  | _ :: _, [] => false
  | c :: cs, d :: ds =>
    if c.toNat < d.toNat then true
    else if d.toNat < c.toNat then false
    else strLt cs ds

/-- Lexicographic `≤` on strings. -/
def strLe (a b : String) : Bool :=
  !(strLt b.data a.data)

/-- Model of `sorted(...)` on names (lexicographic). -/
def sortStr (l : List String) : List String :=
  l.insertionSort (fun a b => strLe a b = true)

/-- Model of `__validate_roster`: returned unchanged when the constraint lists mention
nobody; otherwise the sorted enumeration of `set(roster) | members`. -/
def validateRoster (roster : Option (List String)) (t a : Option (List Pair)) :
    Option (List String) :=
  let members := membersOf t ++ membersOf a
  if members = [] then roster
  else some (sortStr ((roster.getD [] ++ members).dedup))

/-- Model of `__init__`: validations in source order, then the initial state with an
empty chart cache. -/
def scInit (roster : Option (List String)) (t a : Option (List Pair))
    (ms ng : Option Int) : Except Err SC :=
  match validateTogetherApart t a with
  | .error e => .error e
  | .ok _ =>
    match validateInt ms with
    | .error e => .error e
    | .ok ms' =>
      match validateInt ng with
      | .error e => .error e
      | .ok ng' => .ok ⟨t, a, ms', ng', validateRoster roster t a, none⟩

/-- Model of `new()`: regenerate; on success replace the cache, on failure the raise
propagates before the assignment, leaving the state untouched. -/
def scNew (s : SC) (shuffle : List String → List String) : SC × Except Err Chart :=
  match generate s shuffle with
  | .ok c => ({ s with cache := some c }, .ok c)
  | .error e => (s, .error e)

/-- The `chart` property: return the cache, or generate and cache. -/
def chartProp (s : SC) (shuffle : List String → List String) : SC × Except Err Chart :=
  match s.cache with
  | some c => (s, .ok c)
  | none => scNew s shuffle

/-- Tail of `update()`: regeneration and cache assignment. -/
def updGen (s : SC) (shuffle : List String → List String) : SC × Option Err :=
  match generate s shuffle with
  | .ok c => ({ s with cache := some c }, none)
  | .error e => (s, some e)

/-- Middle of `update()`: the optional `num_groups` assignment
(`none` models the `False` sentinel: argument not provided). -/
def updCont (s : SC) (ngArg : Option (Option Int))
    (shuffle : List String → List String) : SC × Option Err :=
  match ngArg with
  | some v =>
    match validateInt v with
    | .error e => (s, some e)
    | .ok v' => updGen { s with numGroups := v' } shuffle
  | none => updGen s shuffle

/-- Model of `update()`. -/
def scUpdate (s : SC) (msArg ngArg : Option (Option Int))
    (shuffle : List String → List String) : SC × Option Err :=
  match msArg with
  | some v =>
    match validateInt v with
    | .error e => (s, some e)
    | .ok v' => updCont { s with maxSize := v' } ngArg shuffle
  | none => updCont s ngArg shuffle

/-- Two individuals share some group of a chart. -/
def coMem (x y : String) (c : Chart) : Prop :=
  ∃ g, g ∈ c ∧ x ∈ g ∧ y ∈ g

/-- Every group of `c` is contained in some group of `c'` (the charts only
grow along the pipeline). -/
def chartLe (c c' : Chart) : Prop :=
  ∀ g, g ∈ c → ∃ g', g' ∈ c' ∧ ∀ x, x ∈ g → x ∈ g'

/-! ## Theorems -/

/-- C10: constructing a chart object with every argument absent succeeds and
leaves `roster = None`; the first access of the `chart` property then reaches
`__handle_remaining`, where `set(self.roster)` iterates `None` and raises
`TypeError` instead of returning an empty chart. -/
theorem c10_all_none_chart_raises :
    scInit none none none none none = .ok ⟨none, none, none, none, none, none⟩ ∧
    (chartProp ⟨none, none, none, none, none, none⟩ id).2 = .error .typeErr :=
  ⟨rfl, rfl⟩

/-- C1 (code bug): the claim says every apart-constrained pair ends in two
different groups, including a pair already co-placed by the together stage.
With `together = [(A,B),(B,C)]` and `apart = [(A,C)]` construction succeeds,
generation succeeds, and the final chart is the single group {A,B,C}: A and C
— an apart pair — share a group.  `__handle_apart` has no case for
`item_1_index == item_2_index` with both set, so the pair falls through every
branch untouched. -/
theorem c1_apart_pair_coplaced :
    scInit none (some [("A", "B"), ("B", "C")]) (some [("A", "C")]) none none =
      .ok ⟨some [("A", "B"), ("B", "C")], some [("A", "C")], none, none,
           some ["A", "B", "C"], none⟩ ∧
    generate ⟨some [("A", "B"), ("B", "C")], some [("A", "C")], none, none,
           some ["A", "B", "C"], none⟩ id = .ok [["C", "A", "B"]] ∧
    "A" ∈ (["C", "A", "B"] : SGroup) ∧ "C" ∈ (["C", "A", "B"] : SGroup) :=
  ⟨rfl, rfl, by simp, by simp⟩

/-- C2 (code bug): the claim says every roster individual appears in exactly
one group of the final chart for every ordering of the together pairs.  With
`together = [(A,B),(C,D),(B,C)]` the pair (B,C) is merged only into the first
overlapping group `[A,B]`, while C stays in `[C,D]` as well; generation
succeeds (no apart constraint ever calls `__get_nested_index`, the only
duplicate check) and C appears in two groups of the final chart. -/
theorem c2_individual_in_two_groups :
    scInit none (some [("A", "B"), ("C", "D"), ("B", "C")]) none none none =
      .ok ⟨some [("A", "B"), ("C", "D"), ("B", "C")], none, none, none,
           some ["A", "B", "C", "D"], none⟩ ∧
    generate ⟨some [("A", "B"), ("C", "D"), ("B", "C")], none, none, none,
           some ["A", "B", "C", "D"], none⟩ id = .ok [["C", "A", "B"], ["C", "D"]] ∧
    (([["C", "A", "B"], ["C", "D"]] : Chart).countP (fun g => g.contains "C")) = 2 :=
  ⟨rfl, rfl, rfl⟩

/-- C6 (counterexample): a chart state where the group count strictly exceeds
`num_groups` and the largest group strictly exceeds `max_size`
simultaneously; the balancer raises `InvalidRequest` there, not the
`GroupConflict` the claim names. -/
theorem c6_counterexample :
    (([["A", "B"], ["C"]] : Chart) ≠ [] ∧
     (1 : Int) < (([["A", "B"], ["C"]] : Chart).length : Int) ∧
     (1 : Int) < (listMax (([["A", "B"], ["C"]] : Chart).map List.length) : Int)) ∧
    balance (some 1) (some 1) "D" [["A", "B"], ["C"]] = .error .invalidRequest ∧
    balance (some 1) (some 1) "D" [["A", "B"], ["C"]] ≠ .error .groupConflict := by
  refine ⟨⟨by decide, by decide, by decide⟩, rfl, ?_⟩
  intro h
  rw [show balance (some 1) (some 1) "D" [["A", "B"], ["C"]] =
        .error .invalidRequest from rfl] at h
  simp at h

/-- C6 (amended): whenever `num_groups` is set and strictly exceeded and
`max_size` is set and strictly exceeded on a nonempty chart, the balancer
raises `InvalidRequest`, not `GroupConflict`: the lone `max_size` check
precedes the combined check and fires first, so the `GroupConflict` raise in
`__balance_nested_list` is unreachable for every input. -/
theorem c6_amended_invalid_request :
    (∀ (m k : Int) (item : String) (chart : Chart), chart ≠ [] →
      k < (chart.length : Int) →
      m < (listMax (chart.map List.length) : Int) →
      balance (some m) (some k) item chart = .error .invalidRequest) ∧
    (∀ (ms ng : Option Int) (item : String) (chart : Chart),
      balance ms ng item chart ≠ .error .groupConflict) := by
  constructor
  · intro m k item chart hne hk hm
    have hms : msExceededB (some m) (listMax (chart.map List.length)) = true := by
      simp [msExceededB, hm]
    simp [balance, hne, hms]
  · intro ms ng item chart
    by_cases hc : chart = []
    · simp [balance, hc]
    · simp only [balance, if_neg hc]
      cases h : msExceededB ms (listMax (chart.map List.length)) <;>
        simp [h]
      split_ifs <;> simp

/-- C6 (witness): the amended theorem applied at the state of the
counterexample. -/
theorem c6_amended_invalid_request_witness :
    balance (some 1) (some 1) "D" [["A", "B"], ["C"]] = .error .invalidRequest :=
  c6_amended_invalid_request.1 1 1 "D" [["A", "B"], ["C"]]
    (by decide) (by decide) (by decide)

/-- Strict lexicographic order is asymmetric. -/
theorem strLt_asymm : ∀ (x y : List Char), strLt x y = true → strLt y x = false
  | [], [] => by simp [strLt]
  | [], _ :: _ => by simp [strLt]
  | _ :: _, [] => by simp [strLt]
  | c :: cs, d :: ds => by
    simp only [strLt]
    split_ifs with h1 h2 h3 <;> intro h <;>
      first | rfl | omega | exact strLt_asymm cs ds h | simp_all

/-- Two code-point sequences neither of which is lexicographically below the
other are equal. -/
theorem strLt_eq_of_not : ∀ (x y : List Char),
    strLt x y = false → strLt y x = false → x = y
  | [], [] => by simp
  | [], _ :: _ => by simp [strLt]
  | _ :: _, [] => by simp [strLt]
  | c :: cs, d :: ds => by
    simp only [strLt]
    split_ifs with h1 h2 h3 <;> intro h h' <;> try simp_all
    have hcd : c = d := Char.ext (UInt32.ext (Nat.le_antisymm h3 h1))
    have := strLt_eq_of_not cs ds h h'
    simp [hcd, this]

/-- Strict lexicographic order is transitive. -/
theorem strLt_trans : ∀ (x y z : List Char),
    strLt x y = true → strLt y z = true → strLt x z = true
  | [], [], _ => by simp [strLt]
  | [], _ :: _, [] => by simp [strLt]
  | [], _ :: _, _ :: _ => by simp [strLt]
  | _ :: _, [], _ => by simp [strLt]
  | c :: cs, d :: ds, [] => by simp [strLt]
  | c :: cs, d :: ds, e :: es => by
    simp only [strLt]
    split_ifs with h1 h2 h3 h4 h5 h6 <;> intro h h' <;>
      first | rfl | omega | exact strLt_trans cs ds es h h' | simp_all

/-- Totality of `strLe`. -/
theorem strLe_total (a b : String) : strLe a b = true ∨ strLe b a = true := by
  by_cases h : strLt b.data a.data = true
  · right
    simp [strLe, strLt_asymm _ _ h]
  · left
    simp only [strLe, Bool.not_eq_true] at h ⊢
    simp [h]

/-- Transitivity of `strLe`. -/
theorem strLe_trans (a b c : String) (h1 : strLe a b = true)
    (h2 : strLe b c = true) : strLe a c = true := by
  simp only [strLe, Bool.not_eq_true', Bool.not_eq_true] at h1 h2 ⊢
  by_cases h3 : strLt b.data c.data = true
  · by_cases h4 : strLt c.data a.data = true
    · have := strLt_trans _ _ _ h3 h4
      simp_all
    · simpa using h4
  · have : b.data = c.data := strLt_eq_of_not _ _ (by simpa using h3) h2
    rw [← this]
    exact h1

/-- C7 (counterexample): every individual of `together = [(A,B)]` is already
in the caller's roster `["B","A"]`, yet `__validate_roster` does not return
the roster as given: the claim's "returned exactly as given whenever no
constrained individual is missing" fails (the result is the sorted
`["A","B"]`). -/
theorem c7_counterexample :
    ("A" ∈ (["B", "A"] : List String) ∧ "B" ∈ (["B", "A"] : List String)) ∧
    validateRoster (some ["B", "A"]) (some [("A", "B")]) none ≠ some ["B", "A"] := by
  exact ⟨⟨by simp, by simp⟩, by decide⟩

/-- C7 (amended): the roster is returned exactly as given only when the
together and apart lists mention no individuals at all; as soon as any
constraint pair exists — even with all its members already in the roster —
the result is the lexicographically sorted, deduplicated union of the roster
and the constraint members. -/
theorem c7_amended : ∀ (r : Option (List String)) (t a : Option (List Pair)),
    (membersOf t ++ membersOf a = [] → validateRoster r t a = r) ∧
    (membersOf t ++ membersOf a ≠ [] →
      ∃ l, validateRoster r t a = some l ∧
        l.Sorted (fun x y => strLe x y = true) ∧ l.Nodup ∧
        (∀ x, x ∈ l ↔ x ∈ r.getD [] ∨ x ∈ membersOf t ++ membersOf a)) := by
  intro r t a
  constructor
  · intro h
    simp [validateRoster, h]
  · intro h
    refine ⟨sortStr ((r.getD [] ++ (membersOf t ++ membersOf a)).dedup),
      by simp [validateRoster, h], ?_, ?_, ?_⟩
    · letI : IsTotal String (fun x y => strLe x y = true) := ⟨strLe_total⟩
      letI : IsTrans String (fun x y => strLe x y = true) := ⟨strLe_trans⟩
      exact List.sorted_insertionSort _ _
    · exact ((List.perm_insertionSort _ _).nodup_iff).mpr (List.nodup_dedup _)
    · intro x
      simp [sortStr, List.mem_insertionSort, List.mem_dedup, List.mem_append]

/-- C7 (witness): the amended theorem applied at the counterexample's input. -/
theorem c7_amended_witness :
    ∃ l, validateRoster (some ["B", "A"]) (some [("A", "B")]) none = some l ∧
      l.Sorted (fun x y => strLe x y = true) ∧ l.Nodup ∧
      (∀ x, x ∈ l ↔ x ∈ (some ["B", "A"] : Option (List String)).getD [] ∨
        x ∈ membersOf (some [("A", "B")]) ++ membersOf none) :=
  (c7_amended (some ["B", "A"]) (some [("A", "B")]) none).2 (by decide)

/-- Validator `__validate_integer_inputs` only ever raises `PositiveInteger` (the
`TypeError` branch is outside the `Int` model). -/
theorem validateInt_error_eq (x : Option Int) (e : Err) :
    validateInt x = .error e → e = .positiveInteger := by
  cases x with
  | none => simp [validateInt]
  | some n =>
    simp only [validateInt]
    split_ifs <;> intro h <;> simp_all

/-- Validator `__validate_together_apart` raises `GroupConflict` exactly when both
lists are present and some together pair equals some apart pair as an
unordered set. -/
theorem vta_error_iff (t a : Option (List Pair)) :
    validateTogetherApart t a = .error .groupConflict ↔
      (∃ ts aps, t = some ts ∧ a = some aps ∧
        ∃ p ∈ ts, ∃ q ∈ aps,
          ((p.1 = q.1 ∧ p.2 = q.2) ∨ (p.1 = q.2 ∧ p.2 = q.1))) := by
  cases t with
  | none => simp [validateTogetherApart]
  | some ts =>
    cases a with
    | none => simp [validateTogetherApart]
    | some aps =>
      simp only [validateTogetherApart]
      split_ifs with h
      · simp only [List.any_eq_true, setEqPair, Bool.or_eq_true, Bool.and_eq_true,
          beq_iff_eq] at h
        obtain ⟨p, hp, q, hq, hpq⟩ := h
        simp only [true_iff, eq_self_iff_true]
        exact ⟨ts, aps, rfl, rfl, p, hp, q, hq, hpq⟩
      · simp only [List.any_eq_true, setEqPair, Bool.or_eq_true, Bool.and_eq_true,
          beq_iff_eq] at h
        constructor
        · intro hc
          simp at hc
        · rintro ⟨ts', aps', hts, haps, p, hp, q, hq, hpq⟩
          cases hts
          cases haps
          exact absurd ⟨p, hp, q, hq, hpq⟩ h

/-- C8: construction raises `GroupConflict` iff some together pair and some
apart pair hold exactly the same two individuals as an unordered set (the
together/apart check runs first in `__init__`, and no later validation can
raise `GroupConflict`); and the check is a no-op when either list is absent
or empty. -/
theorem c8_collision_iff :
    ∀ (r : Option (List String)) (t a : Option (List Pair)) (ms ng : Option Int),
    (scInit r t a ms ng = .error .groupConflict ↔
      ∃ ts aps, t = some ts ∧ a = some aps ∧
        ∃ p ∈ ts, ∃ q ∈ aps,
          ((p.1 = q.1 ∧ p.2 = q.2) ∨ (p.1 = q.2 ∧ p.2 = q.1))) ∧
    ((t = none ∨ t = some [] ∨ a = none ∨ a = some []) →
      validateTogetherApart t a = .ok ()) := by
  intro r t a ms ng
  constructor
  · rw [← vta_error_iff]
    simp only [scInit]
    cases hv : validateTogetherApart t a with
    | error e =>
      cases t with
      | none => simp [validateTogetherApart] at hv
      | some ts =>
        cases a with
        | none => simp [validateTogetherApart] at hv
        | some aps =>
          have : e = .groupConflict := by
            simp only [validateTogetherApart] at hv
            split_ifs at hv
            simp_all
          subst this
          simp
    | ok u =>
      constructor
      · cases hm : validateInt ms with
        | error e =>
          intro hc
          have := validateInt_error_eq ms e hm
          simp_all
        | ok ms' =>
          cases hn : validateInt ng with
          | error e =>
            intro hc
            have := validateInt_error_eq ng e hn
            simp_all
          | ok ng' => simp_all
      · intro hc
        simp_all
  · intro h
    rcases h with h | h | h | h <;> subst h
    · cases a <;> simp [validateTogetherApart]
    · cases a <;> simp [validateTogetherApart]
    · cases t <;> simp [validateTogetherApart]
    · cases t <;> simp [validateTogetherApart]

/-- C8 (witness): at `together = [(A,B)]`, `apart = [(B,A)]` the iff's
right-hand side holds and construction indeed raises `GroupConflict`; and
the absent-list no-op applied at `together = none`. -/
theorem c8_collision_iff_witness :
    scInit none (some [("A", "B")]) (some [("B", "A")]) none none =
      .error .groupConflict ∧
    validateTogetherApart none (some [("A", "B")]) = .ok () :=
  ⟨(c8_collision_iff none (some [("A", "B")]) (some [("B", "A")]) none none).1.mpr
      ⟨[("A", "B")], [("B", "A")], rfl, rfl, ("A", "B"), by simp, ("B", "A"), by simp,
        by simp⟩,
    (c8_collision_iff none none (some [("A", "B")]) none none).2 (Or.inl rfl)⟩

/-- A failing regeneration inside `update()` leaves the cache field of the
state it was given untouched. -/
theorem updGen_cache (s : SC) (shuffle : List String → List String) (e : Err) :
    (updGen s shuffle).2 = some e → (updGen s shuffle).1.cache = s.cache := by
  cases h : generate s shuffle <;> simp [updGen, h]

/-- Failure anywhere after the `num_groups` argument of `update()` leaves the
cache untouched. -/
theorem updCont_cache (s : SC) (ngArg : Option (Option Int))
    (shuffle : List String → List String) (e : Err) :
    (updCont s ngArg shuffle).2 = some e →
      (updCont s ngArg shuffle).1.cache = s.cache := by
  cases ngArg with
  | none => exact updGen_cache s shuffle e
  | some v =>
    cases hv : validateInt v with
    | error e2 => simp [updCont, hv]
    | ok v' =>
      simp only [updCont, hv]
      exact updGen_cache { s with numGroups := v' } shuffle e

/-- C9: if `new()` or `update()` raises at any validation or generation
stage, the previously cached chart is unchanged: in both methods the
assignment `self.__chart = self.__generate_chart()` evaluates its right-hand
side first, so a raise propagates before the cache is written. -/
theorem c9_failed_regen_preserves_cache :
    ∀ (s : SC) (shuffle : List String → List String)
      (msArg ngArg : Option (Option Int)) (e e' : Err),
    ((scNew s shuffle).2 = .error e → (scNew s shuffle).1.cache = s.cache) ∧
    ((scUpdate s msArg ngArg shuffle).2 = some e' →
      (scUpdate s msArg ngArg shuffle).1.cache = s.cache) := by
  intro s shuffle msArg ngArg e e'
  constructor
  · cases h : generate s shuffle <;> simp [scNew, h]
  · cases msArg with
    | none => exact updCont_cache s ngArg shuffle e'
    | some v =>
      cases hv : validateInt v with
      | error e2 => simp [scUpdate, hv]
      | ok v' =>
        simp only [scUpdate, hv]
        exact updCont_cache { s with maxSize := v' } ngArg shuffle e'

/-- C9 (witness): `update(max_size=0)` on a state with a cached chart fails
with `PositiveInteger` and the cached chart survives. -/
theorem c9_failed_regen_preserves_cache_witness :
    (scUpdate ⟨none, none, none, none, some ["X"], some [["X"]]⟩
      (some (some 0)) none id).1.cache = some [["X"]] :=
  (c9_failed_regen_preserves_cache ⟨none, none, none, none, some ["X"], some [["X"]]⟩
    id (some (some 0)) none .positiveInteger .positiveInteger).2 rfl

/-- Reflexivity of `chartLe`. -/
theorem chartLe_refl (c : Chart) : chartLe c c :=
  fun g hg => ⟨g, hg, fun _ hx => hx⟩

/-- Transitivity of `chartLe`. -/
theorem chartLe_trans {a b c : Chart} (h1 : chartLe a b) (h2 : chartLe b c) :
    chartLe a c := by
  intro g hg
  obtain ⟨g', hg', hsub⟩ := h1 g hg
  obtain ⟨g'', hg'', hsub'⟩ := h2 g' hg'
  exact ⟨g'', hg'', fun x hx => hsub' x (hsub x hx)⟩

/-- Appending groups only grows a chart. -/
theorem chartLe_append (c d : Chart) : chartLe c (c ++ d) :=
  fun g hg => ⟨g, List.mem_append_left d hg, fun _ hx => hx⟩

/-- Two individuals sharing a group keep sharing one in any larger chart. -/
theorem coMem_mono {x y : String} {c c' : Chart} (h : chartLe c c')
    (hm : coMem x y c) : coMem x y c' := by
  obtain ⟨g, hg, hx, hy⟩ := hm
  obtain ⟨g', hg', hsub⟩ := h g hg
  exact ⟨g', hg', hsub x hx, hsub y hy⟩

/-- The merge step of `__handle_together` only grows groups: the merged group
is replaced by its union with the pair, all others survive. -/
theorem mergeFirst_chartLe (p : Pair) :
    ∀ (c c' : List SGroup), mergeFirst p c = some c' → chartLe c c'
  | [], _ => by simp [mergeFirst]
  | g :: gs, c' => by
    simp only [mergeFirst]
    split_ifs with h
    · intro he
      cases he
      intro g' hg'
      rcases List.mem_cons.mp hg' with h1 | h1
      · subst h1
        refine ⟨unionPG p g', List.mem_append_right _ (List.mem_singleton.mpr rfl), ?_⟩
        intro x hx
        simp only [unionPG, List.mem_dedup, List.mem_append, List.mem_cons,
          List.mem_singleton]
        tauto
      · exact ⟨g', List.mem_append_left _ h1, fun _ hx => hx⟩
    · intro he
      cases hr : mergeFirst p gs with
      | none => rw [hr] at he; simp at he
      | some r =>
        rw [hr] at he
        simp at he
        cases he
        intro g' hg'
        rcases List.mem_cons.mp hg' with h1 | h1
        · subst h1
          exact ⟨g', List.mem_cons_self _ _, fun _ hx => hx⟩
        · obtain ⟨g'', hg'', hsub⟩ := mergeFirst_chartLe p gs r hr g' h1
          exact ⟨g'', List.mem_cons_of_mem _ hg'', hsub⟩

/-- After a successful merge the union group holds both pair members. -/
theorem mergeFirst_pair_mem (p : Pair) :
    ∀ (c c' : List SGroup), mergeFirst p c = some c' →
      ∃ g, g ∈ c' ∧ p.1 ∈ g ∧ p.2 ∈ g
  | [], _ => by simp [mergeFirst]
  | g :: gs, c' => by
    simp only [mergeFirst]
    split_ifs with h
    · intro he
      cases he
      refine ⟨unionPG p g, List.mem_append_right _ (List.mem_singleton.mpr rfl), ?_, ?_⟩
      · simp [unionPG, List.mem_dedup]
      · simp [unionPG, List.mem_dedup]
    · intro he
      cases hr : mergeFirst p gs with
      | none => rw [hr] at he; simp at he
      | some r =>
        rw [hr] at he
        simp at he
        cases he
        obtain ⟨g', hg', h1, h2⟩ := mergeFirst_pair_mem p gs r hr
        exact ⟨g', List.mem_cons_of_mem _ hg', h1, h2⟩

/-- One together-pair iteration only grows the chart. -/
theorem togStep_chartLe (c : List SGroup) (p : Pair) : chartLe c (togStep c p) := by
  by_cases hc : c = []
  · subst hc
    intro g hg
    simp at hg
  · simp only [togStep, if_neg hc]
    cases hm : mergeFirst p c with
    | some r => exact mergeFirst_chartLe p c r hm
    | none => exact chartLe_append c [[p.1, p.2]]

/-- After its own iteration a together pair shares a group. -/
theorem togStep_pair_mem (c : List SGroup) (p : Pair) :
    ∃ g, g ∈ togStep c p ∧ p.1 ∈ g ∧ p.2 ∈ g := by
  by_cases hc : c = []
  · subst hc
    exact ⟨[p.1, p.2], by simp [togStep], by simp, by simp⟩
  · simp only [togStep, if_neg hc]
    cases hm : mergeFirst p c with
    | some r => exact mergeFirst_pair_mem p c r hm
    | none =>
      exact ⟨[p.1, p.2], List.mem_append_right _ (List.mem_singleton.mpr rfl),
        by simp, by simp⟩

/-- The together loop only grows the chart. -/
theorem buildTogether_chartLe : ∀ (ps : List Pair) (c : List SGroup),
    chartLe c (buildTogether ps c)
  | [], c => chartLe_refl c
  | p :: ps, c =>
    chartLe_trans (togStep_chartLe c p) (buildTogether_chartLe ps (togStep c p))

/-- Every pair processed by the together loop shares a group afterwards. -/
theorem buildTogether_pair_mem : ∀ (ps : List Pair) (c : List SGroup) (p : Pair),
    p ∈ ps → ∃ g, g ∈ buildTogether ps c ∧ p.1 ∈ g ∧ p.2 ∈ g
  | [], _, _, hp => by simp at hp
  | q :: ps, c, p, hp => by
    rcases List.mem_cons.mp hp with h | h
    · subst h
      obtain ⟨g, hg, h1, h2⟩ := togStep_pair_mem c p
      obtain ⟨g', hg', hsub⟩ := buildTogether_chartLe ps (togStep c p) g hg
      exact ⟨g', hg', hsub _ h1, hsub _ h2⟩
    · exact buildTogether_pair_mem ps (togStep c q) p h

/-- Sorting by size permutes the groups, so the chart only "grows". -/
theorem sortLenDesc_chartLe (c : Chart) : chartLe c (sortLenDesc c) := by
  intro g hg
  refine ⟨g, ?_, fun _ hx => hx⟩
  simpa [sortLenDesc, List.mem_insertionSort] using hg

/-- Stage `__handle_together` co-locates every pair of its input. -/
theorem handleTogether_pair_mem (ts : List Pair) (p : Pair) (hp : p ∈ ts) :
    coMem p.1 p.2 (handleTogether (some ts)) := by
  obtain ⟨g, hg, h1, h2⟩ := buildTogether_pair_mem ts [] p hp
  obtain ⟨g', hg', hsub⟩ := sortLenDesc_chartLe (buildTogether ts []) g hg
  exact ⟨g', hg', hsub _ h1, hsub _ h2⟩

/-- Step `__append_item` only grows the chart. -/
theorem appendItem_chartLe (ap : List Pair) (ms : Option Int) (item : String) :
    ∀ (c : Chart), chartLe c (appendItem ap ms item c)
  | [] => by
    intro g hg
    simp at hg
  | g :: gs => by
    simp only [appendItem]
    split_ifs with h1 h2
    · intro g' hg'
      rcases List.mem_cons.mp hg' with h | h
      · subst h
        exact ⟨g', List.mem_cons_self _ _, fun _ hx => hx⟩
      · obtain ⟨g'', hg'', hsub⟩ := appendItem_chartLe ap ms item gs g' h
        exact ⟨g'', List.mem_cons_of_mem _ hg'', hsub⟩
    · intro g' hg'
      rcases List.mem_cons.mp hg' with h | h
      · subst h
        exact ⟨g' ++ [item], List.mem_cons_self _ _,
          fun x hx => List.mem_append_left _ hx⟩
      · exact ⟨g', List.mem_cons_of_mem _ h, fun _ hx => hx⟩
    · intro g' hg'
      rcases List.mem_cons.mp hg' with h | h
      · subst h
        exact ⟨g', List.mem_cons_self _ _, fun _ hx => hx⟩
      · obtain ⟨g'', hg'', hsub⟩ := appendItem_chartLe ap ms item gs g' h
        exact ⟨g'', List.mem_cons_of_mem _ hg'', hsub⟩

/-- One apart-pair iteration only grows the chart. -/
theorem apartStep_chartLe (ap : List Pair) (ms : Option Int) (c : Chart) (p : Pair)
    (c' : Chart) (h : apartStep ap ms c p = .ok c') : chartLe c c' := by
  simp only [apartStep] at h
  cases h1 : getNestedIndex p.1 c with
  | error e => rw [h1] at h; simp at h
  | ok i1 =>
    rw [h1] at h
    dsimp only at h
    cases h2 : getNestedIndex p.2 c with
    | error e => rw [h2] at h; simp at h
    | ok i2 =>
      rw [h2] at h
      dsimp only at h
      by_cases hc : c = []
      · rw [if_pos hc] at h
        cases h
        subst hc
        intro g hg
        simp at hg
      · rw [if_neg hc] at h
        by_cases hb : (i1.isSome && i2.isSome && decide (i1 ≠ i2)) = true
        · rw [if_pos hb] at h
          cases h
          exact chartLe_refl _
        · rw [if_neg hb] at h
          by_cases hx : (i1.isNone != i2.isNone) = true
          · rw [if_pos hx] at h
            cases h
            exact appendItem_chartLe ap ms _ c
          · rw [if_neg hx] at h
            by_cases hn : (i1.isNone && i2.isNone) = true
            · rw [if_pos hn] at h
              cases h
              exact chartLe_trans (appendItem_chartLe ap ms p.1 c)
                (appendItem_chartLe ap ms p.2 _)
            · rw [if_neg hn] at h
              cases h
              exact chartLe_refl _

/-- The apart loop only grows the chart. -/
theorem applyApart_chartLe (ap : List Pair) (ms : Option Int) :
    ∀ (ps : List Pair) (c d : Chart), applyApart ap ms c ps = .ok d → chartLe c d := by
  intro ps
  induction ps with
  | nil =>
    intro c d h
    simp only [applyApart] at h
    cases h
    exact chartLe_refl _
  | cons p ps ih =>
    intro c d h
    simp only [applyApart] at h
    cases hs : apartStep ap ms c p with
    | error e => rw [hs] at h; simp at h
    | ok c1 =>
      rw [hs] at h
      exact chartLe_trans (apartStep_chartLe ap ms c p c1 hs) (ih c1 d h)

/-- Stage `__handle_apart` only grows the chart. -/
theorem handleApart_chartLe (a : Option (List Pair)) (ms : Option Int)
    (c d : Chart) (h : handleApart a ms c = .ok d) : chartLe c d := by
  cases a with
  | none =>
    simp only [handleApart] at h
    cases h
    exact chartLe_refl _
  | some ps => exact applyApart_chartLe ps ms ps c d h

/-- Update `chart[i] += [item]` only grows the chart. -/
theorem appendAt_chartLe (item : String) : ∀ (i : Nat) (c : Chart),
    chartLe c (appendAt i item c)
  | _, [] => by
    intro g hg
    simp at hg
  | 0, g :: gs => by
    intro g' hg'
    rcases List.mem_cons.mp hg' with h | h
    · subst h
      exact ⟨g' ++ [item], by simp [appendAt], fun x hx => List.mem_append_left _ hx⟩
    · exact ⟨g', by simp [appendAt, h], fun _ hx => hx⟩
  | n + 1, g :: gs => by
    intro g' hg'
    rcases List.mem_cons.mp hg' with h | h
    · subst h
      exact ⟨g', by simp [appendAt], fun _ hx => hx⟩
    · obtain ⟨g'', hg'', hsub⟩ := appendAt_chartLe item n gs g' h
      exact ⟨g'', by simp [appendAt]; right; exact hg'', hsub⟩

/-- A successful `__balance_nested_list` only grows the chart. -/
theorem balance_chartLe (ms ng : Option Int) (item : String) (c d : Chart)
    (h : balance ms ng item c = .ok d) : chartLe c d := by
  simp only [balance] at h
  by_cases hc : c = []
  · rw [if_pos hc] at h
    cases h
    subst hc
    intro g hg
    simp at hg
  · rw [if_neg hc] at h
    by_cases h1 : msExceededB ms (listMax (c.map List.length)) = true
    · rw [if_pos h1] at h
      simp at h
    · rw [if_neg h1] at h
      by_cases h2 : (ngExceededB ng c.length &&
          msExceededB ms (listMax (c.map List.length))) = true
      · rw [if_pos h2] at h
        simp at h
      · rw [if_neg h2] at h
        by_cases h3 : belowNumGroups ng c.length = true
        · rw [if_pos h3] at h
          cases h
          exact chartLe_append _ _
        · rw [if_neg h3] at h
          by_cases h4 : atMaxAllSame ms ((c.map List.length).dedup.length == 1)
              (listMax (c.map List.length)) = true
          · rw [if_pos h4] at h
            cases h
            exact chartLe_append _ _
          · rw [if_neg h4] at h
            cases h
            exact appendAt_chartLe item _ c

/-- The balancing loop only grows the chart. -/
theorem placeAll_chartLe (ms ng : Option Int) :
    ∀ (l : List String) (c d : Chart), placeAll ms ng c l = .ok d → chartLe c d := by
  intro l
  induction l with
  | nil =>
    intro c d h
    simp only [placeAll] at h
    cases h
    exact chartLe_refl _
  | cons x xs ih =>
    intro c d h
    simp only [placeAll] at h
    cases hb : balance ms ng x c with
    | error e => rw [hb] at h; simp at h
    | ok c1 =>
      rw [hb] at h
      exact chartLe_trans (balance_chartLe ms ng x c c1 hb) (ih c1 d h)

/-- Stage `__handle_remaining` only grows the chart. -/
theorem handleRemaining_chartLe (roster : Option (List String))
    (shuffle : List String → List String) (ms ng : Option Int) (c d : Chart)
    (h : handleRemaining roster shuffle ms ng c = .ok d) : chartLe c d := by
  cases roster with
  | none => simp [handleRemaining] at h
  | some r => exact placeAll_chartLe ms ng _ c d h

/-- A successful generation only grows the together-stage chart. -/
theorem generate_chartLe (s : SC) (shuffle : List String → List String) (c : Chart)
    (h : generate s shuffle = .ok c) : chartLe (handleTogether s.together) c := by
  simp only [generate] at h
  cases h2 : handleApart s.apart s.maxSize (handleTogether s.together) with
  | error e => rw [h2] at h; simp at h
  | ok c2 =>
    rw [h2] at h
    dsimp only at h
    cases h3 : validateGroupSize s.maxSize c2 with
    | error e => rw [h3] at h; simp at h
    | ok u =>
      rw [h3] at h
      dsimp only at h
      cases h4 : handleRemaining s.roster shuffle s.maxSize s.numGroups c2 with
      | error e => rw [h4] at h; simp at h
      | ok c3 =>
        rw [h4] at h
        dsimp only at h
        cases h5 : validateNumberOfGroups s.numGroups c3 with
        | error e => rw [h5] at h; simp at h
        | ok u2 =>
          rw [h5] at h
          dsimp only at h
          cases h
          exact chartLe_trans (handleApart_chartLe s.apart s.maxSize _ c2 h2)
            (handleRemaining_chartLe s.roster shuffle s.maxSize s.numGroups c2 c h4)

/-- C3: whenever generation succeeds, every together pair shares a group of
the final chart (every later stage only extends or appends groups); and the
chain (A,B),(B,C),(C,D) is transitively merged into a single final group
holding all four individuals. -/
theorem c3_together_pairs_colocated :
    (∀ (s : SC) (shuffle : List String → List String) (c : Chart) (ts : List Pair),
      s.together = some ts → generate s shuffle = .ok c →
      ∀ p ∈ ts, coMem p.1 p.2 c) ∧
    (scInit (some ["A", "B", "C", "D"]) (some [("A", "B"), ("B", "C"), ("C", "D")])
        none none none =
      .ok ⟨some [("A", "B"), ("B", "C"), ("C", "D")], none, none, none,
           some ["A", "B", "C", "D"], none⟩ ∧
     generate ⟨some [("A", "B"), ("B", "C"), ("C", "D")], none, none, none,
           some ["A", "B", "C", "D"], none⟩ id = .ok [["D", "C", "A", "B"]] ∧
     ∀ x ∈ (["A", "B", "C", "D"] : List String), x ∈ (["D", "C", "A", "B"] : SGroup)) := by
  constructor
  · intro s shuffle c ts hts hgen p hp
    have h1 : coMem p.1 p.2 (handleTogether s.together) := by
      rw [hts]
      exact handleTogether_pair_mem ts p hp
    exact coMem_mono (generate_chartLe s shuffle c hgen) h1
  · exact ⟨rfl, rfl, by decide⟩

/-- C3 (witness): the general statement applied to the together pair (A,B)
on the roster [A,B]. -/
theorem c3_together_pairs_colocated_witness : coMem "A" "B" [["A", "B"]] :=
  c3_together_pairs_colocated.1
    ⟨some [("A", "B")], none, none, none, some ["A", "B"], none⟩ id [["A", "B"]]
    [("A", "B")] rfl rfl ("A", "B") (by simp)

/-- Update `chart[i] += [item]` preserves the number of groups. -/
theorem appendAt_length (item : String) : ∀ (i : Nat) (c : Chart),
    (appendAt i item c).length = c.length
  | _, [] => by simp [appendAt]
  | 0, g :: gs => by simp [appendAt]
  | n + 1, g :: gs => by simp [appendAt, appendAt_length item n gs]

/-- With `max_size = None` and `num_groups = K`, one balancing step never
fails and grows the group count exactly while it is below `K`. -/
theorem balance_none_ng (K : Nat) (hK : 1 ≤ K) (item : String) (c : Chart) :
    ∃ d, balance none (some (K : Int)) item c = .ok d ∧
      d.length = if c.length < K then c.length + 1 else c.length := by
  by_cases hc : c = []
  · subst hc
    refine ⟨[[item]], rfl, ?_⟩
    have h0 : (0 : Nat) < K := hK
    simp [h0]
  · by_cases hb : c.length < K
    · refine ⟨c ++ [[item]], ?_, by simp [hb]⟩
      have hbel : belowNumGroups (some (K : Int)) c.length = true := by
        simp [belowNumGroups]
        omega
      simp [balance, hc, msExceededB, hbel]
    · refine ⟨appendAt ((c.map List.length).indexOf (listMin (c.map List.length))) item c,
        ?_, by simp [hb, appendAt_length]⟩
      have hbel : belowNumGroups (some (K : Int)) c.length = false := by
        simp [belowNumGroups]
        omega
      simp [balance, hc, msExceededB, hbel, atMaxAllSame]

/-- With `max_size = None` and `num_groups = K`, placing a list of remaining
individuals succeeds and the final group count is `min (start + placed) K`. -/
theorem placeAll_none_ng (K : Nat) (hK : 1 ≤ K) :
    ∀ (l : List String) (c : Chart), c.length ≤ K →
      ∃ d, placeAll none (some (K : Int)) c l = .ok d ∧
        d.length = min (c.length + l.length) K := by
  intro l
  induction l with
  | nil =>
    intro c hc
    refine ⟨c, rfl, ?_⟩
    simp
    omega
  | cons x xs ih =>
    intro c hc
    obtain ⟨d1, hd1, hlen1⟩ := balance_none_ng K hK x c
    have hd1K : d1.length ≤ K := by
      rw [hlen1]
      split_ifs <;> omega
    obtain ⟨d, hd, hlen⟩ := ih d1 hd1K
    refine ⟨d, ?_, ?_⟩
    · simp only [placeAll, hd1]
      exact hd
    · simp only [List.length_cons]
      rcases Nat.lt_or_ge c.length K with h | h
      · rw [if_pos h] at hlen1
        omega
      · rw [if_neg (by omega)] at hlen1
        omega

/-- C4: for a roster of N distinct individuals with `num_groups = K`,
`1 ≤ K ≤ N` and no other constraint, generation succeeds (for every shuffle
of the roster) and the final chart has exactly K groups. -/
theorem c4_num_groups_exact (r : List String) (K : Nat)
    (shuffle : List String → List String)
    (hnd : r.Nodup) (h1 : 1 ≤ K) (hK : K ≤ r.length)
    (hsh : ∀ l, (shuffle l).Perm l) :
    ∃ c, generate ⟨none, none, none, some (K : Int), some r, none⟩ shuffle = .ok c ∧
      c.length = K := by
  obtain ⟨d, hd, hlen⟩ := placeAll_none_ng K h1 (shuffle r) [] (by simp)
  have hlenK : d.length = K := by
    rw [hlen]
    have := (hsh r).length_eq
    simp at this ⊢
    omega
  have hrem : handleRemaining (some r) shuffle none (some (K : Int)) [] = .ok d := by
    simp only [handleRemaining]
    have hfil : (r.dedup).filter (fun x => !(placedIn [] x)) = r := by
      rw [List.dedup_eq_self.mpr hnd]
      exact List.filter_eq_self.mpr (fun a _ => by simp [placedIn])
    rw [hfil]
    exact hd
  have hstep : generate ⟨none, none, none, some (K : Int), some r, none⟩ shuffle =
      (match handleRemaining (some r) shuffle none (some (K : Int)) [] with
        | .error e => .error e
        | .ok c3 =>
          match validateNumberOfGroups (some (K : Int)) c3 with
          | .error e => .error e
          | .ok _ => .ok c3) := rfl
  rw [hstep, hrem]
  have hval : validateNumberOfGroups (some (K : Int)) d = .ok () := by
    simp [validateNumberOfGroups, hlenK]
  dsimp only
  rw [hval]
  exact ⟨d, rfl, hlenK⟩

/-- C4 (witness): roster of 3, `num_groups = 2`, identity shuffle. -/
theorem c4_num_groups_exact_witness :
    ∃ c, generate ⟨none, none, none, some (2 : Int), some ["A", "B", "C"], none⟩ id =
      .ok c ∧ c.length = 2 :=
  c4_num_groups_exact ["A", "B", "C"] 2 id (by decide) (by decide) (by decide)
    (fun l => List.Perm.refl l)

/-- A nonempty list whose members all equal `a` dedups to `[a]`. -/
theorem dedup_all_eq : ∀ (l : List Nat) (a : Nat), l ≠ [] → (∀ x ∈ l, x = a) →
    l.dedup = [a]
  | [], _, hne, _ => absurd rfl hne
  | [x], a, _, h => by
    have := h x (by simp)
    simp [this]
  | x :: y :: ys, a, _, h => by
    have hx : x = a := h x (by simp)
    have hrest : (y :: ys).dedup = [a] :=
      dedup_all_eq (y :: ys) a (by simp) (fun z hz => h z (List.mem_cons_of_mem _ hz))
    have hmem : x ∈ y :: ys := by
      have : a ∈ (y :: ys).dedup := by simp [hrest]
      rw [hx]
      exact List.mem_dedup.mp this
    rw [List.dedup_cons_of_mem hmem, hrest]

/-- Folding `Nat.max` over a constant list is the constant. -/
theorem foldl_max_all_eq : ∀ (l : List Nat) (a : Nat), (∀ x ∈ l, x = a) →
    l.foldl Nat.max a = a
  | [], _, _ => rfl
  | x :: xs, a, h => by
    have hx : x = a := h x (by simp)
    subst hx
    simp only [List.foldl_cons, Nat.max_self]
    exact foldl_max_all_eq xs x (fun z hz => h z (List.mem_cons_of_mem _ hz))

/-- Maximum of a nonempty constant list is the constant. -/
theorem listMax_all_eq : ∀ (l : List Nat) (a : Nat), l ≠ [] → (∀ x ∈ l, x = a) →
    listMax l = a
  | [], _, hne, _ => absurd rfl hne
  | x :: xs, a, _, h => by
    have hx : x = a := h x (by simp)
    simp only [listMax, hx]
    exact foldl_max_all_eq xs a (fun z hz => h z (List.mem_cons_of_mem _ hz))

/-- With `max_size = 1` on an all-singleton chart, one balancing step opens a
fresh singleton group at the end (branch (b) of the placement priorities). -/
theorem balance_ms1 (item : String) (c : Chart) (hall : ∀ g ∈ c, g.length = 1) :
    balance (some 1) none item c = .ok (c ++ [[item]]) := by
  by_cases hc : c = []
  · subst hc
    rfl
  · have hsz : ∀ x ∈ c.map List.length, x = 1 := by
      intro x hx
      obtain ⟨g, hg, hgx⟩ := List.mem_map.mp hx
      rw [← hgx]
      exact hall g hg
    have hne : c.map List.length ≠ [] := by
      simp [hc]
    have hmax : listMax (c.map List.length) = 1 := listMax_all_eq _ 1 hne hsz
    have hded : (c.map List.length).dedup = [1] := dedup_all_eq _ 1 hne hsz
    have hms : msExceededB (some 1) (listMax (c.map List.length)) = false := by
      simp [msExceededB, hmax]
    have hat : atMaxAllSame (some 1) (((c.map List.length).dedup.length) == 1)
        (listMax (c.map List.length)) = true := by
      simp [atMaxAllSame, hded, hmax]
    simp [balance, hc, hms, hat, ngExceededB, belowNumGroups]

/-- With `max_size = 1`, placing a list of remaining individuals on an
all-singleton chart succeeds, keeps every group a singleton, and adds one
group per individual. -/
theorem placeAll_ms1 : ∀ (l : List String) (c : Chart), (∀ g ∈ c, g.length = 1) →
    ∃ d, placeAll (some 1) none c l = .ok d ∧
      d.length = c.length + l.length ∧ ∀ g ∈ d, g.length = 1 := by
  intro l
  induction l with
  | nil =>
    intro c hall
    exact ⟨c, rfl, by simp, hall⟩
  | cons x xs ih =>
    intro c hall
    have hall' : ∀ g ∈ c ++ [[x]], g.length = 1 := by
      intro g hg
      rcases List.mem_append.mp hg with h | h
      · exact hall g h
      · simp at h
        simp [h]
    obtain ⟨d, hd, hlen, hall''⟩ := ih (c ++ [[x]]) hall'
    refine ⟨d, ?_, ?_, hall''⟩
    · simp only [placeAll, balance_ms1 x c hall]
      exact hd
    · simp at hlen
      simp [hlen]
      omega

/-- C5: for a roster of N distinct individuals with `max_size = 1` and no
other constraint, generation succeeds (for every shuffle of the roster) and
the final chart has exactly N groups, each of size 1. -/
theorem c5_max_size_one (r : List String) (shuffle : List String → List String)
    (hnd : r.Nodup) (hsh : ∀ l, (shuffle l).Perm l) :
    ∃ c, generate ⟨none, none, some 1, none, some r, none⟩ shuffle = .ok c ∧
      c.length = r.length ∧ ∀ g ∈ c, g.length = 1 := by
  obtain ⟨d, hd, hlen, hall⟩ := placeAll_ms1 (shuffle r) [] (by simp)
  have hrem : handleRemaining (some r) shuffle (some 1) none [] = .ok d := by
    simp only [handleRemaining]
    have hfil : (r.dedup).filter (fun x => !(placedIn [] x)) = r := by
      rw [List.dedup_eq_self.mpr hnd]
      exact List.filter_eq_self.mpr (fun a _ => by simp [placedIn])
    rw [hfil]
    exact hd
  have hstep : generate ⟨none, none, some 1, none, some r, none⟩ shuffle =
      (match handleRemaining (some r) shuffle (some 1) none [] with
        | .error e => .error e
        | .ok c3 =>
          match validateNumberOfGroups none c3 with
          | .error e => .error e
          | .ok _ => .ok c3) := rfl
  rw [hstep, hrem]
  refine ⟨d, rfl, ?_, hall⟩
  rw [hlen]
  have := (hsh r).length_eq
  simp at this ⊢
  omega

/-- C5 (witness): roster of 2, `max_size = 1`, identity shuffle. -/
theorem c5_max_size_one_witness :
    ∃ c, generate ⟨none, none, some 1, none, some ["A", "B"], none⟩ id = .ok c ∧
      c.length = 2 ∧ ∀ g ∈ c, g.length = 1 := by
  have h := c5_max_size_one ["A", "B"] id (by decide) (fun l => List.Perm.refl l)
  simpa using h
